import Mathlib

/-!
Shallow embedding of `kovetskiy/short`, a short-term-memory training utility,
for checking its natural-language specification.

The repository has two variants of the program:
* `src/main.go` — the plain-text variant (namespace `Plain` below);
* `src/unnamed/part_000` — the full-screen termbox variant (namespace `Screen`).

Go `int` values are modelled as `Int` (scores and loop counters that are
provably non-negative are `Nat`), Go `float64` as `Rat` (no claim depends on
floating-point rounding), byte-level file content as `List β` for an
arbitrary element type `β`, and the external `encoding/json` codec as
explicit `encode` / `decode` parameters.
-/

namespace Short

/-- `Result` from both variants: one trial's outcome
(`type Result struct { Score int; Duration float64; Count int }`). -/
structure Result where
  score : Int
  duration : Rat
  count : Int
deriving DecidableEq, Repr

/-- `DatabaseItem` from `saveResults` in both variants:
`{ Date string; AvgDuration float64; TotalScore int; Results []Result }`. -/
structure DatabaseItem where
  date : String
  avgDuration : Rat
  totalScore : Int
  results : List Result
deriving DecidableEq, Repr

/-! ## Scorer (`compare`, src/main.go lines 193–208) -/

namespace Plain

/-- The loop of `compare` in `src/main.go`:
`for index := 0; index < length; index++ { if valid[index] == input[index]
{ score++ } else { break } }`. Out-of-range indexing cannot occur because the
loop bound is at most both lengths; `getD _ 0` stands for Go's checked
indexing. -/
def compareLoop (validNumbers inputNumbers : List Int)
    (length index score : Nat) : Nat :=
  if h : index < length then
    if validNumbers.getD index 0 = inputNumbers.getD index 0 then
      compareLoop validNumbers inputNumbers length (index + 1) (score + 1)
    else
      score
  else
    score
termination_by length - index
decreasing_by omega

/-- `compare` in `src/main.go`: `length := len(inputNumbers); if
len(validNumbers) < length { length = len(validNumbers) }` then the counting
loop starting from `index = 0`, `score = 0`. -/
def compare (validNumbers inputNumbers : List Int) : Nat :=
  let length := inputNumbers.length
  let length := if validNumbers.length < length then validNumbers.length else length
  compareLoop validNumbers inputNumbers length 0 0

end Plain

namespace Screen

/-- The loop of `compare` in `src/unnamed/part_000` (textually identical to
the plain variant's loop). -/
def compareLoop (validNumbers inputNumbers : List Int)
    (length index score : Nat) : Nat :=
  if h : index < length then
    if validNumbers.getD index 0 = inputNumbers.getD index 0 then
      compareLoop validNumbers inputNumbers length (index + 1) (score + 1)
    else
      score
  else
    score
termination_by length - index
decreasing_by omega

/-- `compare` in `src/unnamed/part_000` (textually identical to the plain
variant's `compare`). -/
def compare (validNumbers inputNumbers : List Int) : Nat :=
  let length := inputNumbers.length
  let length := if validNumbers.length < length then validNumbers.length else length
  compareLoop validNumbers inputNumbers length 0 0

end Screen

/-- Length of the longest common prefix of two integer sequences — the
mathematical notion the spec's Scorer section describes. -/
def lcpLength : List Int → List Int → Nat
  | a :: as, b :: bs => if a = b then lcpLength as bs + 1 else 0
  | _, _ => 0

lemma lcpLength_le (a b : List Int) : lcpLength a b ≤ min a.length b.length := by
  induction a generalizing b with
  | nil => simp [lcpLength]
  | cons x xs ih =>
    cases b with
    | nil => simp [lcpLength]
    | cons y ys =>
      by_cases hxy : x = y
      · simpa [lcpLength, hxy, Nat.succ_min_succ] using ih ys
      · simp [lcpLength, hxy]

lemma lcpLength_self (a : List Int) : lcpLength a a = a.length := by
  induction a with
  | nil => simp [lcpLength]
  | cons x xs ih => simp [lcpLength, ih]

/-- The longest-common-prefix length really is a common prefix: taking that
many leading elements from either sequence gives the same list. -/
lemma lcpLength_take (a b : List Int) :
    a.take (lcpLength a b) = b.take (lcpLength a b) := by
  induction a generalizing b with
  | nil => simp [lcpLength]
  | cons x xs ih =>
    cases b with
    | nil => simp [lcpLength]
    | cons y ys =>
      by_cases hxy : x = y
      · simp [lcpLength, hxy, ih ys]
      · simp [lcpLength, hxy]

/-- And it is longest: any common prefix of the two sequences is no longer. -/
lemma lcpLength_maximal (a b : List Int) (k : Nat)
    (hk : k ≤ min a.length b.length) (h : a.take k = b.take k) :
    k ≤ lcpLength a b := by
  induction a generalizing b k with
  | nil => simp at hk; omega
  | cons x xs ih =>
    cases b with
    | nil => simp at hk; omega
    | cons y ys =>
      cases k with
      | zero => exact Nat.zero_le _
      | succ m =>
        simp only [List.take_succ_cons, List.cons.injEq] at h
        have hxy : x = y := h.1
        simp only [lcpLength]
        rw [if_pos hxy]
        have := ih ys m (by simp [Nat.succ_min_succ] at hk; omega) h.2
        omega

/-- The `compare` loop, started at `index` with accumulator `score` and loop
bound `L ≤ min` of the two lengths, adds the (bound-truncated) common-prefix
length of the remaining suffixes. Fuel `n` is the remaining iteration count
`L - index`. -/
lemma compareLoop_eq (n : Nat) : ∀ (v i : List Int) (L index score : Nat),
    L - index = n → L ≤ v.length → L ≤ i.length →
    Plain.compareLoop v i L index score =
      score + min n (lcpLength (v.drop index) (i.drop index)) := by
  induction n with
  | zero =>
    intro v i L index score hn _ _
    rw [Plain.compareLoop]
    simp [Nat.not_lt.mpr (by omega : L ≤ index)]
  | succ m ih =>
    intro v i L index score hn hv hi
    have hidx : index < L := by omega
    have hvlen : index < v.length := by omega
    have hilen : index < i.length := by omega
    rw [Plain.compareLoop]
    rw [dif_pos hidx]
    have hdv : v.drop index = v[index] :: v.drop (index + 1) :=
      List.drop_eq_getElem_cons hvlen
    have hdi : i.drop index = i[index] :: i.drop (index + 1) :=
      List.drop_eq_getElem_cons hilen
    have hgv : v.getD index 0 = v[index] := List.getD_eq_getElem v 0 hvlen
    have hgi : i.getD index 0 = i[index] := List.getD_eq_getElem i 0 hilen
    by_cases heq : v.getD index 0 = i.getD index 0
    · rw [if_pos heq]
      rw [ih v i L (index + 1) (score + 1) (by omega) hv hi]
      rw [hdv, hdi]
      have hheads : v[index] = i[index] := by rw [← hgv, ← hgi]; exact heq
      simp only [lcpLength]
      rw [if_pos hheads]
      omega
    · rw [if_neg heq]
      rw [hdv, hdi]
      have hheads : v[index] ≠ i[index] := by rw [← hgv, ← hgi]; exact heq
      simp only [lcpLength]
      rw [if_neg hheads]
      omega

/-- The plain variant's scorer computes exactly the longest-common-prefix
length. -/
lemma compare_eq_lcpLength (v i : List Int) :
    Plain.compare v i = lcpLength v i := by
  unfold Plain.compare
  have hL : (if v.length < i.length then v.length else i.length)
      = min v.length i.length := by
    rcases Nat.lt_or_ge v.length i.length with h | h
    · simp [h, Nat.min_eq_left (Nat.le_of_lt h)]
    · simp [Nat.not_lt.mpr h, Nat.min_eq_right h]
  simp only [hL]
  rw [compareLoop_eq (min v.length i.length) v i (min v.length i.length) 0 0
    (by omega) (Nat.min_le_left _ _) (Nat.min_le_right _ _)]
  simp [Nat.min_eq_right (lcpLength_le v i)]

/-- The two variants' `compareLoop`s agree (the source code is textually
identical). -/
lemma screen_compareLoop_eq (n : Nat) : ∀ (v i : List Int) (L index score : Nat),
    L - index = n →
    Screen.compareLoop v i L index score = Plain.compareLoop v i L index score := by
  induction n with
  | zero =>
    intro v i L index score hn
    rw [Screen.compareLoop, Plain.compareLoop]
    simp [Nat.not_lt.mpr (by omega : L ≤ index)]
  | succ m ih =>
    intro v i L index score hn
    have hidx : index < L := by omega
    rw [Screen.compareLoop, Plain.compareLoop]
    rw [dif_pos hidx, dif_pos hidx]
    by_cases heq : v.getD index 0 = i.getD index 0
    · rw [if_pos heq, if_pos heq]
      exact ih v i L (index + 1) (score + 1) (by omega)
    · rw [if_neg heq, if_neg heq]

/-! ## Random Sequence Generator (`generateRandomNumbers`, identical in both
variants).

The Go loop draws from `crypto/rand`; we model the random source as an
explicit list `draws` of the successive values returned by
`rand.Int(rand.Reader, big.NewInt(int64(max)))` (whose contract is
`0 ≤ draw < max`). The loop body is `if number < min { i--; continue }`
(retry without consuming a slot) else append. `some ns` means the loop
finished within the supplied draws; `none` means the draws ran out. -/

/-- `generateRandomNumbers` from both variants, with the random source made
explicit. `max` only constrains the draws (a hypothesis in the theorems), as
in Go where it is passed to `rand.Int`. -/
def generateRandomNumbers (min max : Int) : Nat → List Int → Option (List Int)
  | 0, _ => some []
  | _ + 1, [] => none
  | count + 1, draw :: draws =>
    if draw < min then
      generateRandomNumbers min max (count + 1) draws
    else
      (generateRandomNumbers min max count draws).map (fun rest => draw :: rest)

/-! ## Input Collector

`getNumbersFromStdin` (src/main.go) and `getNumbers` (src/unnamed/part_000)
share the same parsing logic: `strings.Split(text, " ")` then
`strconv.Atoi(piece)` with the error ignored (yielding `0` on parse failure,
since `numbers` is appended the zero value). The external library functions
`strings.Split` and `strconv.Atoi` are modelled below. -/

/-- Numeric value of a digit string, most significant first (the successful
case of `strconv.Atoi`). -/
def digitsValue (l : List Char) : Nat :=
  l.foldl (fun acc c => acc * 10 + (c.toNat - 48)) 0

/-- Model of Go `strconv.Atoi`: `some` the value on a syntactically valid
numeral (optional sign followed by at least one digit), `none` on a syntax
error (in which case Go returns the zero value `0` alongside the error).
Values are unbounded integers; the int64 range is not modelled. -/
def Atoi (s : String) : Option Int :=
  match s.toList with
  | [] => none
  | '+' :: rest =>
    if rest ≠ [] ∧ rest.all Char.isDigit then some (digitsValue rest) else none
  | '-' :: rest =>
    if rest ≠ [] ∧ rest.all Char.isDigit then some (-(digitsValue rest : Int)) else none
  | list =>
    if list.all Char.isDigit then some (digitsValue list) else none

/-- Model of Go `strings.Split(s, " ")`: split on every single space,
keeping empty tokens; the empty string yields the one-element list
containing the empty token. -/
def splitSpace : List Char → List (List Char)
  | [] => [[]]
  | c :: rest =>
    if c = ' ' then
      [] :: splitSpace rest
    else
      match splitSpace rest with
      | [] => [[c]]
      | t :: ts => (c :: t) :: ts

namespace Plain

/-- `getNumbersFromStdin` in `src/main.go`, applied to the line the scanner
read: split the line on single spaces and `Atoi` each piece, ignoring the
error (so a failed parse contributes `0`). -/
def getNumbersFromStdin (line : String) : List Int :=
  (splitSpace line.toList).map (fun piece => (Atoi (String.mk piece)).getD 0)

end Plain

namespace Screen

/-- `getNumbers` in `src/unnamed/part_000`, applied to the text composed by
`readText`: identical split-and-Atoi logic to the plain variant. -/
def getNumbers (text : String) : List Int :=
  (splitSpace text.toList).map (fun piece => (Atoi (String.mk piece)).getD 0)

end Screen

/-! ## Result Store (`saveResults`, identical in both variants)

The Go function opens the log file, reads its whole content, unmarshals it
into a `[]DatabaseItem` initialised to the empty slice (the `json.Unmarshal`
error is ignored, so unparseable content leaves the slice empty), appends
the run's record, marshals, and `fd.WriteAt(content, 0)` — a write at offset
0 with no truncation. File content is `List β`; `encoding/json` is the
parameter pair `decode` / `encode`. -/

/-- `fd.WriteAt(new, 0)` on a file currently holding `old`: the first
`new.length` bytes are replaced and the rest of `old` survives. -/
def writeAt0 {β : Type} (old new : List β) : List β :=
  new ++ old.drop new.length

/-- The in-memory database `saveResults` builds: the parsed prior history
(empty when `decode` fails, as `json.Unmarshal`'s error is discarded and the
slice keeps its `[]DatabaseItem{}` initial value) with the current run's
record appended. -/
def savedDatabase {β : Type} (decode : List β → Option (List DatabaseItem))
    (oldContent : List β) (date : String) (avgDuration : Rat)
    (totalScore : Int) (results : List Result) : List DatabaseItem :=
  (decode oldContent).getD [] ++ [⟨date, avgDuration, totalScore, results⟩]

/-- `saveResults` from both variants: the new file content after the
read–append–marshal–`WriteAt 0` sequence runs on a file holding
`oldContent`. -/
def saveResults {β : Type} (decode : List β → Option (List DatabaseItem))
    (encode : List DatabaseItem → List β) (oldContent : List β)
    (date : String) (avgDuration : Rat) (totalScore : Int)
    (results : List Result) : List β :=
  writeAt0 oldContent
    (encode (savedDatabase decode oldContent date avgDuration totalScore results))

/-! ## Main loop (`main`, both variants)

`results := []Result{}; for i := 0; i < testsCount; i++ { results =
append(results, runTest(...)) }`. `runTest` is interactive (terminal and
randomness), so it is a parameter `trial : Nat → Result` giving trial `i`'s
outcome. -/

/-- The accumulation of per-trial results over `testsCount` loop
iterations. -/
def mainResults (trial : Nat → Result) : Nat → List Result
  | 0 => []
  | n + 1 => mainResults trial n ++ [trial n]

/-! ## Supporting lemmas -/

lemma generateRandomNumbers_sound (min max : Int) :
    ∀ (draws : List Int) (count : Nat) (ns : List Int),
    (∀ d ∈ draws, 0 ≤ d ∧ d < max) →
    generateRandomNumbers min max count draws = some ns →
    ns.length = count ∧ ∀ n ∈ ns, min ≤ n ∧ n < max := by
  intro draws
  induction draws with
  | nil =>
    intro count ns hd h
    cases count with
    | zero =>
      simp only [generateRandomNumbers, Option.some.injEq] at h
      subst h
      simp
    | succ c => simp [generateRandomNumbers] at h
  | cons d ds ih =>
    intro count ns hd h
    cases count with
    | zero =>
      simp only [generateRandomNumbers, Option.some.injEq] at h
      subst h
      simp
    | succ c =>
      rw [generateRandomNumbers] at h
      by_cases hlt : d < min
      · rw [if_pos hlt] at h
        exact ih (c + 1) ns (fun x hx => hd x (List.mem_cons_of_mem _ hx)) h
      · rw [if_neg hlt] at h
        rcases Option.map_eq_some'.mp h with ⟨rest, hrest, hns⟩
        have hih := ih c rest (fun x hx => hd x (List.mem_cons_of_mem _ hx)) hrest
        subst hns
        refine ⟨by simp [hih.1], ?_⟩
        intro n hn
        rcases List.mem_cons.mp hn with hn | hn
        · subst hn
          exact ⟨Int.not_lt.mp hlt, (hd n (List.mem_cons_self _ _)).2⟩
        · exact hih.2 n hn

lemma splitSpace_ne_nil (l : List Char) : splitSpace l ≠ [] := by
  cases l with
  | nil => simp [splitSpace]
  | cons c rest =>
    simp only [splitSpace]
    by_cases hc : c = ' '
    · simp [hc]
    · rw [if_neg hc]
      cases h : splitSpace rest <;> simp

lemma mainResults_length (trial : Nat → Result) (n : Nat) :
    (mainResults trial n).length = n := by
  induction n with
  | zero => rfl
  | succ m ih => simp [mainResults, ih]

lemma mainResults_eq_map_range (trial : Nat → Result) (n : Nat) :
    mainResults trial n = (List.range n).map trial := by
  induction n with
  | zero => rfl
  | succ m ih => simp [mainResults, ih, List.range_succ]

/-! ## The claims -/

/-- C1: for every pair of integer sequences, the scorer returns the length
of their longest common prefix (counting positions from index 0 while
corresponding elements agree, stopping at the first mismatch), and the
result — a `Nat`, hence non-negative — is at most
`min (len expected) (len actual)`. -/
theorem C1_compare_is_lcp (expected actual : List Int) :
    Plain.compare expected actual = lcpLength expected actual ∧
    Plain.compare expected actual ≤ min expected.length actual.length := by
  refine ⟨compare_eq_lcpLength expected actual, ?_⟩
  rw [compare_eq_lcpLength]
  exact lcpLength_le expected actual

/-- C2: for `min < max` and `count > 0`, whenever the generator finishes
(the supplied random draws, each in `[0, max)` by the contract of
`rand.Int`, suffice), it returns exactly `count` integers, each `n`
satisfying `min ≤ n < max`. -/
theorem C2_generator_count_and_range (min max : Int) (count : Nat)
    (draws ns : List Int) (hrange : min < max) (hcount : 0 < count)
    (hdraws : ∀ d ∈ draws, 0 ≤ d ∧ d < max)
    (hrun : generateRandomNumbers min max count draws = some ns) :
    ns.length = count ∧ ∀ n ∈ ns, min ≤ n ∧ n < max :=
  generateRandomNumbers_sound min max draws count ns hdraws hrun

/-- Witness for C2 at `min = 10`, `max = 99`, `count = 2`,
draws `[5, 50, 60]` (the first draw is rejected and redrawn). -/
theorem C2_generator_count_and_range_witness :
    (10 : Int) < 99 ∧ (0 : Nat) < 2 ∧
    (∀ d ∈ ([5, 50, 60] : List Int), 0 ≤ d ∧ d < 99) ∧
    generateRandomNumbers 10 99 2 [5, 50, 60] = some [50, 60] ∧
    (([50, 60] : List Int).length = 2 ∧
      ∀ n ∈ ([50, 60] : List Int), 10 ≤ n ∧ n < 99) :=
  ⟨by decide, by decide, by decide, by decide,
    C2_generator_count_and_range 10 99 2 [5, 50, 60] [50, 60]
      (by decide) (by decide) (by decide) (by decide)⟩

/-- C3: when the existing log content fails to decode, the Result Store
proceeds with the empty history: the database the new record is appended to
is empty, so the in-memory database is exactly the one-element list holding
the run's record, and that is what gets encoded and written. No error path
exists — `saveResults` is total in this case. -/
theorem C3_unparseable_means_empty_history {β : Type}
    (decode : List β → Option (List DatabaseItem))
    (encode : List DatabaseItem → List β) (oldContent : List β)
    (date : String) (avgDuration : Rat) (totalScore : Int)
    (results : List Result)
    (hfail : decode oldContent = none) :
    savedDatabase decode oldContent date avgDuration totalScore results =
      [⟨date, avgDuration, totalScore, results⟩] ∧
    saveResults decode encode oldContent date avgDuration totalScore results =
      writeAt0 oldContent (encode [⟨date, avgDuration, totalScore, results⟩]) := by
  constructor
  · simp [savedDatabase, hfail]
  · simp [saveResults, savedDatabase, hfail]

/-- Witness for C3: a decoder that always fails, on content `[5]`. -/
theorem C3_unparseable_means_empty_history_witness :
    (fun _ : List Nat => (none : Option (List DatabaseItem))) [5] = none ∧
    (savedDatabase (fun _ : List Nat => none) [5] "d" 0 0 [] =
        [⟨"d", 0, 0, []⟩] ∧
      saveResults (fun _ : List Nat => none) (fun _ => [7]) [5] "d" 0 0 [] =
        writeAt0 [5] [7]) :=
  ⟨rfl, C3_unparseable_means_empty_history (fun _ => none) (fun _ => [7])
    [5] "d" 0 0 [] rfl⟩

/-- C4: the Result Store's write at offset 0 does not truncate: every byte
of the prior content at an offset in `[L', L)` (where `L'` is the length of
the re-encoded content and `L` the prior length) is unchanged, and the prior
content's suffix from offset `L'` on survives verbatim — so a shorter
rewrite leaves `L - L'` trailing bytes of the old content. -/
theorem C4_write_does_not_truncate {β : Type}
    (decode : List β → Option (List DatabaseItem))
    (encode : List DatabaseItem → List β) (oldContent : List β)
    (date : String) (avgDuration : Rat) (totalScore : Int)
    (results : List Result) (junk : β) :
    (∀ idx : Nat,
        (encode (savedDatabase decode oldContent date avgDuration totalScore
          results)).length ≤ idx →
        idx < oldContent.length →
        (saveResults decode encode oldContent date avgDuration totalScore
            results).getD idx junk = oldContent.getD idx junk) ∧
    (saveResults decode encode oldContent date avgDuration totalScore
        results).drop
        (encode (savedDatabase decode oldContent date avgDuration totalScore
          results)).length =
      oldContent.drop
        (encode (savedDatabase decode oldContent date avgDuration totalScore
          results)).length := by
  set new := encode (savedDatabase decode oldContent date avgDuration
    totalScore results) with hnew
  have hsave : saveResults decode encode oldContent date avgDuration
      totalScore results = new ++ oldContent.drop new.length := by
    simp [saveResults, writeAt0, hnew]
  constructor
  · intro idx hge hlt
    rw [hsave]
    rw [List.getD_append_right _ _ _ _ hge]
    have hdroplen : idx - new.length < (oldContent.drop new.length).length := by
      simp only [List.length_drop]
      omega
    rw [List.getD_eq_getElem _ junk hdroplen]
    rw [List.getD_eq_getElem _ junk hlt]
    rw [List.getElem_drop]
    congr 1
    omega
  · rw [hsave]
    exact List.drop_left new (oldContent.drop new.length)

/-- Witness for C4: old content `[1, 2, 3]`, new content `[7]`; the byte at
offset 1 is unchanged. -/
theorem C4_write_does_not_truncate_witness :
    (1 : Nat) ≤ 1 ∧ (1 : Nat) < 3 ∧
    (saveResults (fun _ : List Nat => none) (fun _ => [7]) [1, 2, 3]
        "d" 0 0 []).getD 1 0 = ([1, 2, 3] : List Nat).getD 1 0 :=
  ⟨by decide, by decide,
    (C4_write_does_not_truncate (fun _ => none) (fun _ => [7]) [1, 2, 3]
      "d" 0 0 [] 0).1 1 (by decide) (by decide)⟩

/-- C5: on a log decoding to one record `r`, the append-and-rewrite yields a
file whose decoded content is the two-element sequence `[r, current]`,
oldest first. The codec hypotheses (`hlen`: the encoding of the longer list
is at least as long as the old content, true of JSON marshalling of a
superlist; `hround`: decode inverts encode) model `encoding/json`. -/
theorem C5_append_preserves_order {β : Type}
    (decode : List β → Option (List DatabaseItem))
    (encode : List DatabaseItem → List β) (oldContent : List β)
    (r : DatabaseItem) (date : String) (avgDuration : Rat) (totalScore : Int)
    (results : List Result)
    (hold : decode oldContent = some [r])
    (hlen : oldContent.length ≤
      (encode [r, ⟨date, avgDuration, totalScore, results⟩]).length)
    (hround : decode (encode [r, ⟨date, avgDuration, totalScore, results⟩]) =
      some [r, ⟨date, avgDuration, totalScore, results⟩]) :
    decode (saveResults decode encode oldContent date avgDuration totalScore
        results) =
      some [r, ⟨date, avgDuration, totalScore, results⟩] := by
  have hdb : savedDatabase decode oldContent date avgDuration totalScore
      results = [r, ⟨date, avgDuration, totalScore, results⟩] := by
    simp [savedDatabase, hold]
  simp only [saveResults, writeAt0, hdb]
  rw [List.drop_eq_nil_of_le hlen, List.append_nil, hround]

/-- Witness for C5: the identity codec on `List DatabaseItem`, a log holding
one record. -/
theorem C5_append_preserves_order_witness :
    (fun l : List DatabaseItem => some l) [⟨"r0", 0, 0, []⟩] =
      some [⟨"r0", 0, 0, []⟩] ∧
    ([(⟨"r0", 0, 0, []⟩ : DatabaseItem)] : List DatabaseItem).length ≤
      ([⟨"r0", 0, 0, []⟩, ⟨"d", 0, 0, []⟩] : List DatabaseItem).length ∧
    (fun l : List DatabaseItem => some l)
        ((fun l : List DatabaseItem => l) [⟨"r0", 0, 0, []⟩, ⟨"d", 0, 0, []⟩]) =
      some [⟨"r0", 0, 0, []⟩, ⟨"d", 0, 0, []⟩] ∧
    (fun l : List DatabaseItem => some l)
        (saveResults (fun l => some l) (fun l => l) [⟨"r0", 0, 0, []⟩]
          "d" 0 0 []) =
      some [⟨"r0", 0, 0, []⟩, ⟨"d", 0, 0, []⟩] :=
  ⟨rfl, by decide, rfl,
    C5_append_preserves_order (fun l => some l) (fun l => l)
      [⟨"r0", 0, 0, []⟩] ⟨"r0", 0, 0, []⟩ "d" 0 0 [] rfl (by decide) rfl⟩

/-- C6: a run of `n` requested trials accumulates one `Result` per trial in
trial order, and the `DatabaseItem` appended to the persisted history (the
last element of the database that gets encoded) carries a results list of
length exactly `n`. -/
theorem C6_results_length_eq_trials {β : Type}
    (decode : List β → Option (List DatabaseItem)) (oldContent : List β)
    (date : String) (avgDuration : Rat) (totalScore : Int)
    (trial : Nat → Result) (n : Nat) :
    (savedDatabase decode oldContent date avgDuration totalScore
        (mainResults trial n)).getLast?.map
        (fun item => item.results.length) = some n ∧
    mainResults trial n = (List.range n).map trial := by
  constructor
  · simp only [savedDatabase, List.getLast?_concat, Option.map_some']
    simp [mainResults_length]
  · exact mainResults_eq_map_range trial n

/-- C7: the scorer applied to `(A, A)` returns `len A`. -/
theorem C7_compare_self (A : List Int) : Plain.compare A A = A.length := by
  rw [compare_eq_lcpLength, lcpLength_self]

/-- C8: a whitespace-separated token of the input line that fails integer
parsing contributes the value `0` at its position (rather than an error),
and the returned sequence has exactly one integer per token; the full-screen
variant's collector behaves identically on the same text. -/
theorem C8_bad_token_becomes_zero (line : String) (idx : Nat)
    (hidx : idx < (splitSpace line.toList).length)
    (hbad : Atoi (String.mk ((splitSpace line.toList).getD idx [])) = none) :
    (Plain.getNumbersFromStdin line).length = (splitSpace line.toList).length ∧
    (Plain.getNumbersFromStdin line).getD idx 1 = 0 ∧
    Plain.getNumbersFromStdin line = Screen.getNumbers line := by
  refine ⟨by simp [Plain.getNumbersFromStdin], ?_, rfl⟩
  have hlen : idx < (Plain.getNumbersFromStdin line).length := by
    simpa [Plain.getNumbersFromStdin] using hidx
  rw [List.getD_eq_getElem _ 1 hlen]
  simp only [Plain.getNumbersFromStdin, List.getElem_map]
  rw [List.getD_eq_getElem _ [] hidx] at hbad
  rw [hbad]
  rfl

/-- Witness for C8: line `"12 ab 3"`, whose token at index 1 (`"ab"`) is
non-numeric; the collector returns `[12, 0, 3]`. -/
theorem C8_bad_token_becomes_zero_witness :
    1 < (splitSpace "12 ab 3".toList).length ∧
    Atoi (String.mk ((splitSpace "12 ab 3".toList).getD 1 [])) = none ∧
    ((Plain.getNumbersFromStdin "12 ab 3").length =
        (splitSpace "12 ab 3".toList).length ∧
      (Plain.getNumbersFromStdin "12 ab 3").getD 1 1 = 0 ∧
      Plain.getNumbersFromStdin "12 ab 3" = Screen.getNumbers "12 ab 3") :=
  ⟨by decide, by decide,
    C8_bad_token_becomes_zero "12 ab 3" 1 (by decide) (by decide)⟩

/-- C9: splitting on a single space always yields at least one token, so
the collector never returns the empty sequence — one integer per token —
and the empty input line yields exactly `[0]`. -/
theorem C9_collector_never_empty :
    (∀ line : String, splitSpace line.toList ≠ [] ∧
      (Plain.getNumbersFromStdin line).length =
        (splitSpace line.toList).length ∧
      Plain.getNumbersFromStdin line ≠ []) ∧
    Plain.getNumbersFromStdin "" = [0] := by
  refine ⟨fun line => ⟨splitSpace_ne_nil _,
    by simp [Plain.getNumbersFromStdin], ?_⟩, by decide⟩
  simp only [Plain.getNumbersFromStdin, ne_eq, List.map_eq_nil_iff]
  exact splitSpace_ne_nil _

/-- C10: the plain-text variant's scorer and the full-screen variant's
scorer agree on every pair of integer sequences. -/
theorem C10_variants_agree (expected actual : List Int) :
    Plain.compare expected actual = Screen.compare expected actual := by
  simp only [Plain.compare, Screen.compare]
  exact (screen_compareLoop_eq _ expected actual _ 0 0 rfl).symm

end Short
